import Mathlib

/-!
Verification of the two-pass markdown-to-docx emission engine
(`src/image_reference_collector.rs`, `src/emitter.rs`, `src/traverser.rs`).

Strings are modelled as `List Char` (byte positions of the Rust code
coincide with character positions on the ASCII inputs the claims use).
The regex `\x7bref:\s*([^\x7d]*)\s*\x7d` used by `check_references` /
`extract_ref` is modelled by an explicit scanner: a match is a literal
"\x7bref:" followed by the run of characters up to the first '\x7d';
since both starred groups are greedy, the capture is everything between
"\x7bref:" and that '\x7d' with only its *leading* whitespace removed.
Rust's `\s` is modelled on its ASCII part, which covers every input in
this development.
-/

namespace Md2Docx

/-- Characters of a Rust `String` / `&str`. -/
abbrev Chars := List Char

/-- Character class of the regex `\s` and of `char::is_whitespace` as used by
`split_whitespace`, restricted to ASCII. -/
def isWsChar (c : Char) : Bool :=
  c = ' ' || c = '\t' || c = '\n' || c = '\r' || c = '\x0b' || c = '\x0c'

/-- Decimal digits of a number, as produced by `format!("{}", n)`. -/
def natChars (n : Nat) : Chars := (Nat.repr n).toList

/-- The `HashMap<String, usize>` reference namespaces, as association lists
(iteration order is never observed by the source; only `get`, `insert` and
`len` are used). -/
abbrev RefMap := List (Chars × Nat)

/-- `HashMap::get`. -/
def lookupRef : RefMap → Chars → Option Nat
  | [], _ => none
  | (k, v) :: rest, key => if k = key then some v else lookupRef rest key

/-- `HashMap::insert` for the table namespace (overwrites an existing key,
keeping the map's key set duplicate-free). -/
def insertRef : RefMap → Chars → Nat → RefMap
  | [], key, v => [(key, v)]
  | (k, w) :: rest, key, v =>
    if k = key then (k, v) :: rest else (k, w) :: insertRef rest key v

/-- `HashMap::len` is the list length (keys are kept duplicate-free). -/
def RefMap.size (m : RefMap) : Nat := m.length

/-! ### The reference-placeholder scanner (`REF_REGEX` + `extract_ref`) -/

/-- Splits a character list at the first '\x7d' (not included on either
side); `none` when there is no '\x7d'.  This is the `[^\x7d]*\x7d` tail of
the regex. -/
def splitAtBrace : Chars → Option (Chars × Chars)
  | [] => none
  | c :: rest =>
    if c = '}' then some ([], rest)
    else
      match splitAtBrace rest with
      | some (a, b) => some (c :: a, b)
      | none => none

/-- A regex match starting exactly at the head of `s`: `s` must start with
the literal "\x7bref:" and contain a later '\x7d'.  Returns the inner text
(between "\x7bref:" and the '\x7d') and the remainder after the '\x7d'. -/
def refMatchAt : Chars → Option (Chars × Chars)
  | '{' :: 'r' :: 'e' :: 'f' :: ':' :: t => splitAtBrace t
  | _ => none

/-- The capture group of `REF_REGEX`: the inner text with its leading
whitespace removed (the trailing `\s*` of the pattern is starved by the
greedy `[^\x7d]*`, so trailing whitespace stays in the capture). -/
def captureKey (inner : Chars) : Chars := inner.dropWhile isWsChar

/-- Rebuilds the literal matched token "\x7bref:<inner>\x7d" from its inner
text. -/
def refToken (inner : Chars) : Chars :=
  '{' :: 'r' :: 'e' :: 'f' :: ':' :: (inner ++ ['}'])

/-- The replacement text `format!("Figure \x7b\x7d", n)`. -/
def figureText (n : Nat) : Chars := "Figure ".toList ++ natChars n

/-- Fuel-indexed left-to-right scan of `check_references`: find the next
match at or after the cursor; on a successful lookup splice in the
replacement and resume after it (replacement text is never re-scanned), on
a failed lookup leave the token verbatim and resume after the token.  The
fuel only serves termination; `scanRefs` supplies enough for the whole
input. -/
def scanRefsF (m : Chars → Option Nat) : Nat → Chars → Chars
  | 0, s => s
  | _ + 1, [] => []
  | f + 1, c :: rest =>
    match refMatchAt (c :: rest) with
    | some (inner, post) =>
      match m (captureKey inner) with
      | some n => figureText n ++ scanRefsF m f post
      | none => refToken inner ++ scanRefsF m f post
    | none => c :: scanRefsF m f rest

/-- The scan of `Emitter::check_references`, with the map lookup
abstracted to a function. -/
def scanRefs (m : Chars → Option Nat) (s : Chars) : Chars :=
  scanRefsF m s.length s

/-- Does the text contain any `REF_REGEX` match?  (`matched_any` of the
source loop on its first iteration.) -/
def hasRef : Chars → Bool
  | [] => false
  | c :: rest =>
    match refMatchAt (c :: rest) with
    | some _ => true
    | none => hasRef rest

/-! #### Scanner facts -/

theorem splitAtBrace_eq : ∀ {t a b : Chars}, splitAtBrace t = some (a, b) →
    t = a ++ '}' :: b ∧ '}' ∉ a := by
  intro t
  induction t with
  | nil => intro a b h; simp [splitAtBrace] at h
  | cons c rest ih =>
    intro a b h
    by_cases hc : c = '}'
    · subst hc; simp [splitAtBrace] at h
      obtain ⟨ha, hb⟩ := h
      subst ha; subst hb; simp
    · simp [splitAtBrace, hc] at h
      rcases hsp : splitAtBrace rest with _ | ⟨a', b'⟩
      · rw [hsp] at h; simp at h
      · rw [hsp] at h; simp at h
        obtain ⟨ha, hb⟩ := h
        obtain ⟨hrest, hnot⟩ := ih hsp
        subst ha; subst hb
        constructor
        · simp [hrest]
        · simp [hnot]
          intro hcontr
          exact hc hcontr.symm

theorem splitAtBrace_append {a b : Chars} (h : '}' ∉ a) :
    splitAtBrace (a ++ '}' :: b) = some (a, b) := by
  induction a with
  | nil => simp [splitAtBrace]
  | cons c rest ih =>
    simp at h
    push_neg at h
    obtain ⟨hc, hrest⟩ := h
    simp [splitAtBrace, Ne.symm hc, ih hrest]

theorem refMatchAt_eq {s inner post : Chars}
    (h : refMatchAt s = some (inner, post)) :
    s = refToken inner ++ post ∧ '}' ∉ inner := by
  unfold refMatchAt at h
  split at h
  · have := splitAtBrace_eq h
    refine ⟨?_, this.2⟩
    simp [refToken, this.1]
  · exact absurd h (by simp)

/-- The fuel argument is irrelevant once it covers the input length. -/
theorem scanRefsF_fuel (m : Chars → Option Nat) :
    ∀ (f g : Nat) (s : Chars), s.length ≤ f → s.length ≤ g →
      scanRefsF m f s = scanRefsF m g s := by
  intro f
  induction f with
  | zero =>
    intro g s hf _
    have : s = [] := by
      cases s with
      | nil => rfl
      | cons c t => simp at hf
    subst this
    cases g <;> simp [scanRefsF]
  | succ f ih =>
    intro g s hf hg
    cases s with
    | nil => cases g <;> simp [scanRefsF]
    | cons c rest =>
      cases g with
      | zero => simp at hg
      | succ g =>
        simp only [scanRefsF]
        rcases hm : refMatchAt (c :: rest) with _ | ⟨inner, post⟩
        · simp only []
          have hr : rest.length ≤ f := by simpa using hf
          have hr' : rest.length ≤ g := by simpa using hg
          rw [ih g rest hr hr']
        · simp only []
          obtain ⟨hs, _⟩ := refMatchAt_eq hm
          have hlen : post.length ≤ rest.length := by
            have := congrArg List.length hs
            simp [refToken] at this
            omega
          have h1 : post.length ≤ f := by
            simp at hf; omega
          have h2 : post.length ≤ g := by
            simp at hg; omega
          rw [ih g post h1 h2]

theorem scanRefs_nil (m : Chars → Option Nat) : scanRefs m [] = [] := rfl

/-- Unfolding of the scan on a cons cell, independent of fuel bookkeeping. -/
theorem scanRefs_cons (m : Chars → Option Nat) (c : Char) (rest : Chars) :
    scanRefs m (c :: rest) =
      match refMatchAt (c :: rest) with
      | some (inner, post) =>
        match m (captureKey inner) with
        | some n => figureText n ++ scanRefs m post
        | none => refToken inner ++ scanRefs m post
      | none => c :: scanRefs m rest := by
  show scanRefsF m (rest.length + 1) (c :: rest) = _
  simp only [scanRefsF]
  rcases hm : refMatchAt (c :: rest) with _ | ⟨inner, post⟩
  · simp only []
    rfl
  · simp only []
    obtain ⟨hs, _⟩ := refMatchAt_eq hm
    have hlen : post.length ≤ rest.length := by
      have := congrArg List.length hs
      simp [refToken] at this
      omega
    rcases m (captureKey inner) with _ | n
    · simp only []
      rw [scanRefsF_fuel m rest.length post.length post hlen (Nat.le_refl _)]
      rfl
    · simp only []
      rw [scanRefsF_fuel m rest.length post.length post hlen (Nat.le_refl _)]
      rfl

/-- A text with no placeholder token is returned unchanged, character for
character. -/
theorem scanRefs_no_match (m : Chars → Option Nat) :
    ∀ s : Chars, hasRef s = false → scanRefs m s = s := by
  intro s
  induction s with
  | nil => intro _; rfl
  | cons c rest ih =>
    intro h
    rw [scanRefs_cons]
    rcases hm : refMatchAt (c :: rest) with _ | ⟨inner, post⟩
    · simp only []
      have : hasRef rest = false := by
        simpa [hasRef, hm] using h
      rw [ih this]
    · exfalso
      simp [hasRef, hm] at h

theorem refMatchAt_not_open {c : Char} (h : c ≠ '{') (xs : Chars) :
    refMatchAt (c :: xs) = none := by
  rw [refMatchAt.eq_def]
  split
  · next t heq =>
      injection heq with h1 _
      exact absurd h1 h
  · rfl

theorem ws_not_brace {c : Char} (h : isWsChar c = true) : c ≠ '}' := by
  intro hcontr
  subst hcontr
  simp [isWsChar] at h

theorem captureKey_pad {pad k : Chars} (hpad : ∀ c ∈ pad, isWsChar c = true)
    (hkey : k.dropWhile isWsChar = k) : captureKey (pad ++ k) = k := by
  induction pad with
  | nil => exact hkey
  | cons c rest ih =>
    have hc : isWsChar c = true := hpad c (by simp)
    have hrest : ∀ c ∈ rest, isWsChar c = true := fun d hd => hpad d (by simp [hd])
    simp only [captureKey, List.cons_append, List.dropWhile_cons, hc, if_true]
    exact ih hrest

/-- Behaviour of the scan on a text that decomposes as
`pre ++ "\x7bref:" ++ pad ++ k ++ "\x7d" ++ post` where `pre` contains no
'\x7b' (so the token is the leftmost match), `pad` is whitespace and the
key `k` neither starts with whitespace nor contains '\x7d': a known key is
replaced by `Figure N` and scanning resumes after the replacement, an
unknown key leaves the token verbatim and scanning resumes after it. -/
theorem scanRefs_split (m : Chars → Option Nat) (pre pad k post : Chars)
    (hpre : '{' ∉ pre) (hpad : ∀ c ∈ pad, isWsChar c = true)
    (hk : '}' ∉ k) (hkey : k.dropWhile isWsChar = k) :
    scanRefs m (pre ++ refToken (pad ++ k) ++ post) =
      match m k with
      | some n => pre ++ figureText n ++ scanRefs m post
      | none => pre ++ refToken (pad ++ k) ++ scanRefs m post := by
  induction pre with
  | nil =>
    have hsplit : splitAtBrace ((pad ++ k) ++ '}' :: post) = some (pad ++ k, post) := by
      apply splitAtBrace_append
      intro hmem
      rcases List.mem_append.mp hmem with hin | hin
      · exact ws_not_brace (hpad _ hin) rfl
      · exact hk hin
    have htok : refToken (pad ++ k) ++ post =
        '{' :: 'r' :: 'e' :: 'f' :: ':' :: ((pad ++ k) ++ '}' :: post) := by
      simp [refToken]
    have hmatch :
        refMatchAt ('{' :: 'r' :: 'e' :: 'f' :: ':' :: ((pad ++ k) ++ '}' :: post)) =
          some (pad ++ k, post) := by
      simpa [refMatchAt] using hsplit
    simp only [List.nil_append]
    rw [htok, scanRefs_cons, hmatch]
    have hck := captureKey_pad hpad hkey
    rcases hmk : m k with _ | n
    · simp [hck, hmk, htok]
    · simp [hck, hmk]
  | cons p pre' ih =>
    have hp : p ≠ '{' := by
      intro hcontr
      exact hpre (by simp [hcontr])
    have hpre' : '{' ∉ pre' := fun hmem => hpre (by simp [hmem])
    have : (p :: pre') ++ refToken (pad ++ k) ++ post =
        p :: (pre' ++ refToken (pad ++ k) ++ post) := by simp
    rw [this, scanRefs_cons, refMatchAt_not_open hp, ih hpre']
    rcases m k with _ | n <;> simp

/-! ### Whitespace normalization (`visit_text`) -/

/-- Word decomposition under `split_whitespace`: splitting at every
whitespace character, empty pieces included. -/
def wordsCore : Chars → List Chars
  | [] => []
  | c :: t =>
    if isWsChar c then [] :: wordsCore t
    else
      match wordsCore t with
      | [] => [[c]]
      | w :: rest => (c :: w) :: rest

/-- `str::split_whitespace` collected to a vector: the non-empty maximal
runs of non-whitespace characters. -/
def splitWhitespace (s : Chars) : List Chars :=
  (wordsCore s).filter (fun w => !w.isEmpty)

/-- The text normalization of `Emitter::visit_text`:
`value.replace("\n", " ")` followed by
`.split_whitespace().collect::<Vec<_>>().join(" ")`. -/
def normalizeText (value : Chars) : Chars :=
  let with_spaces := value.map (fun c => if c = '\n' then ' ' else c)
  List.intercalate [' '] (splitWhitespace with_spaces)

/-! ### The mdast node tree (`markdown::mdast::Node`, closed variant set)

Payloads are restricted to the fields the two passes read; child lists are
kept exactly where mdast has them (so kinds whose children the default
handlers ignore, such as `Delete`, are visibly treated as leaves).  The
`align` vector of `Table` is omitted: `visit_table` maps it into a local
binding that is immediately discarded. -/

inductive Node where
  | root (children : List Node)
  | paragraph (children : List Node)
  | heading (depth : Nat) (children : List Node)
  | text (value : Chars)
  | strong (children : List Node)
  | emphasis (children : List Node)
  | list (ordered : Bool) (children : List Node)
  | listItem (checked : Option Bool) (spread : Bool) (children : List Node)
  | image (url alt : Chars) (title : Option Chars)
  | blockquote (children : List Node)
  | footnoteDefinition (children : List Node)
  | mdxJsxFlowElement (children : List Node)
  | mdxjsEsm (value : Chars)
  | toml (value : Chars)
  | yaml (value : Chars)
  | hardBreak
  | inlineCode (value : Chars)
  | inlineMath (value : Chars)
  | delete (children : List Node)
  | mdxTextExpression (value : Chars)
  | footnoteReference (identifier : Chars)
  | html (value : Chars)
  | imageReference (identifier : Chars)
  | mdxJsxTextElement (children : List Node)
  | link (children : List Node)
  | linkReference (children : List Node)
  | code (value : Chars)
  | math (value : Chars)
  | mdxFlowExpression (value : Chars)
  | table (children : List Node)
  | thematicBreak
  | tableRow (children : List Node)
  | tableCell (children : List Node)
  | definition (identifier : Chars)

/-! ### Inline metadata and the external collaborators -/

/-- `ImageModifiers`, decoded from an image's alt text.  The `f64` scale is
idealized as a rational; no claim inspects a scaled dimension. -/
structure ImageModifiers where
  scale : Rat
  ref : Option Chars
deriving DecidableEq

/-- `ImageModifiers::default()`. -/
def ImageModifiers.default : ImageModifiers := { scale := 1, ref := none }

/-- `TableMetadata` (`src/metadata.rs`), decoded from a table cell's first
text content. -/
structure TableMetadata where
  caption : Chars
  ref : Chars
deriving DecidableEq

/-- Result of `img_path.exists()` followed by `std::fs::read(&img_path)`. -/
inductive ReadResult where
  | notFound
  | readError (msg : Chars)
  | content (bytes : List Nat)
deriving DecidableEq

/-- The external collaborators both passes consume: `serde_json` decoding
of the two inline micro-formats, and the filesystem / image-decoder pair
used by `handle_image`.  `parse_alt` models
`serde_json::from_str::<ImageModifiers>(alt).unwrap_or(default)` (already
total, defaults applied), which pass 1 and pass 2 call identically on the
same alt text.  `pixel_dims` models `image::io::Reader::open(..)` +
`into_dimensions()`; `none` is the `Err` case that
`get_image_dimensions(..).unwrap()` turns into a panic. -/
structure Env where
  parse_alt : Chars → ImageModifiers
  parse_table_metadata : Chars → Option TableMetadata
  read_file : Chars → ReadResult
  pixel_dims : Chars → Option (Nat × Nat)

/-- `PathBuf::join` for the relative image urls this domain uses. -/
def path_join (base url : Chars) : Chars := base ++ '/' :: url

def EMUS_PER_INCH : Nat := 914400

def PPI : Nat := 220

def U32_MOD : Nat := 4294967296

/-- Pixel count to EMU: `EMUS_PER_INCH * dim / PPI` in `u32` arithmetic
(the release-mode wrapping product). -/
def emuOfPixels (d : Nat) : Nat := (EMUS_PER_INCH * d) % U32_MOD / PPI

/-- `get_image_dimensions`: returns the image dimensions in (EMU, EMU), or
`none` for the error that the caller's `.unwrap()` turns into a panic. -/
def get_image_dimensions (env : Env) (file_path : Chars) : Option (Nat × Nat) :=
  (env.pixel_dims file_path).map (fun p => (emuOfPixels p.1, emuOfPixels p.2))

/-- `(dim as f64 * scale) as u32`, idealized over the rationals: truncation
toward zero and the saturating float-to-u32 cast. -/
def scale_dim (scale : Rat) (d : Nat) : Nat :=
  let v : Int := ⌊(d : Rat) * scale⌋
  if v < 0 then 0 else min v.toNat (U32_MOD - 1)

/-! ### Pass 1: `ImageReferenceCollector` -/

/-- The state of `ImageReferenceCollector`
(`src/image_reference_collector.rs`). -/
structure ImageReferenceCollector where
  image_count : Nat
  image_references : RefMap
  table_count : Nat
  table_references : RefMap
deriving DecidableEq

/-- `ImageReferenceCollector::default()`. -/
def ImageReferenceCollector.init : ImageReferenceCollector :=
  { image_count := 0, image_references := [], table_count := 0, table_references := [] }

/-- `ImageReferenceCollector::get`: figure namespace first, then table
namespace. -/
def ImageReferenceCollector.get (self : ImageReferenceCollector) (r : Chars) :
    Option Chars :=
  match lookupRef self.image_references r with
  | some n => some ("Figure ".toList ++ natChars n)
  | none =>
    match lookupRef self.table_references r with
    | some n => some ("Table ".toList ++ natChars n)
    | none => none

/-- `Into<HashMap<String, usize>> for ImageReferenceCollector`: only the
figure namespace survives the conversion handed to the Emitter. -/
def ImageReferenceCollector.intoMap (self : ImageReferenceCollector) : RefMap :=
  self.image_references

/-- `ImageReferenceCollector::visit_image`: decode the alt text; if a `ref`
is present, increment the figure counter, then register the key only when
it is new (a duplicate is logged and ignored, never overwriting). -/
def collector_visit_image (env : Env) (self : ImageReferenceCollector)
    (alt : Chars) : ImageReferenceCollector :=
  let res := env.parse_alt alt
  match res.ref with
  | some reference =>
    let self := { self with image_count := self.image_count + 1 }
    let figure_number := self.image_count
    match lookupRef self.image_references reference with
    | some _ => self
    | none =>
      { self with image_references := self.image_references ++ [(reference, figure_number)] }
  | none => self

/-- Cell half of the scan in `ImageReferenceCollector::visit_table`. -/
def collector_scan_cells (env : Env) (table_count : Nat) :
    List Node → RefMap → RefMap
  | [], acc => acc
  | Node.tableCell cellChildren :: cells, acc =>
    match cellChildren with
    | [] => collector_scan_cells env table_count cells acc
    | firstChild :: _ =>
      match firstChild with
      | Node.text value =>
        match env.parse_table_metadata value with
        | some metadata =>
          collector_scan_cells env table_count cells (insertRef acc metadata.ref table_count)
        | none => collector_scan_cells env table_count cells acc
      | _ => collector_scan_cells env table_count cells acc
  | _ :: cells, acc => collector_scan_cells env table_count cells acc

/-- The row/cell scan of `ImageReferenceCollector::visit_table`: for each
`TableRow` child, for each `TableCell` child whose first child is a `Text`,
decode `TableMetadata` from it and on success insert
`(ref -> current table counter)` (a plain `HashMap::insert`: overwrites). -/
def collector_scan_rows (env : Env) (table_count : Nat) :
    List Node → RefMap → RefMap
  | [], acc => acc
  | Node.tableRow cells :: rows, acc =>
    collector_scan_rows env table_count rows (collector_scan_cells env table_count cells acc)
  | _ :: rows, acc => collector_scan_rows env table_count rows acc

/-- `ImageReferenceCollector::visit_table`: increment the table counter
unconditionally, then scan rows and cells for metadata.  Children are not
dispatched through `process_node`, so nothing below a table is collected as
an image. -/
def collector_visit_table (env : Env) (self : ImageReferenceCollector)
    (children : List Node) : ImageReferenceCollector :=
  let self := { self with table_count := self.table_count + 1 }
  { self with
    table_references :=
      collector_scan_rows env self.table_count children self.table_references }

mutual

/-- Pass 1 dispatch: `MarkdownNodeTraverser::process_node` for
`ImageReferenceCollector` — the two overridden visitors plus the trait
defaults (containers recurse, leaves are no-ops; `heading` uses the
default *leaf* handler, so images inside headings are not collected). -/
def collect_node (env : Env) (self : ImageReferenceCollector) :
    Node → ImageReferenceCollector
  | .root children => collect_list env self children
  | .paragraph children => collect_list env self children
  | .strong children => collect_list env self children
  | .emphasis children => collect_list env self children
  | .list _ children => collect_list env self children
  | .listItem _ _ children => collect_list env self children
  | .blockquote children => collect_list env self children
  | .link children => collect_list env self children
  | .tableRow children => collect_list env self children
  | .image _ alt _ => collector_visit_image env self alt
  | .table children => collector_visit_table env self children
  | _ => self

/-- Child loop of the pass 1 default container handlers. -/
def collect_list (env : Env) (self : ImageReferenceCollector) :
    List Node → ImageReferenceCollector
  | [] => self
  | c :: cs => collect_list env (collect_node env self c) cs

end

/-! ### The docx output model

Only what the emitter constructs is modelled: paragraphs of runs (each run
is one `add_text` or one `add_image`) with the alignment / indent /
numbering properties the source sets, collected in the order
`Docx::add_paragraph` appends them.  `docx_rs` tables exist as a block kind
but the emitter never calls `add_table`. -/

inductive AlignmentType where
  | left
  | right
  | center
deriving DecidableEq

/-- `Pic::new(&buffer).size(w, h)`. -/
structure Pic where
  bytes : List Nat
  w : Nat
  h : Nat
deriving DecidableEq

inductive RunContent where
  | text (value : Chars)
  | image (pic : Pic)
deriving DecidableEq

/-- A `docx_rs::Run` as built here: one content plus the styling calls
applied to it. -/
structure DocxRun where
  content : RunContent
  bold : Bool
  italic : Bool
  size : Option Nat
deriving DecidableEq

/-- The four arguments of `docx_rs::Paragraph::indent` as called by
`visit_paragraph` (the `SpecialIndentType` slot is passed `None` there and
is modelled by its optional numeric payload). -/
structure ParaIndent where
  left : Option Int
  special_indent : Option Int
  indent_end : Option Int
  start_chars : Option Int
deriving DecidableEq

/-- A `docx_rs::Paragraph` as built here. -/
structure DocxParagraph where
  runs : List DocxRun
  align : Option AlignmentType
  indent : Option ParaIndent
  numbering : Option (Nat × Nat)
deriving DecidableEq

/-- `docx_rs::Paragraph::new()` (also `Paragraph::default()`, the value
`mem::take` leaves behind). -/
def DocxParagraph.new : DocxParagraph :=
  { runs := [], align := none, indent := none, numbering := none }

/-- `Paragraph::add_run`. -/
def DocxParagraph.add_run (p : DocxParagraph) (r : DocxRun) : DocxParagraph :=
  { p with runs := p.runs ++ [r] }

/-- A `docx_rs::TableCell`; `visit_table_cell` never constructs one, so the
emitter's cell buffer stays empty. -/
inductive DocxTableCell where
  | mk
deriving DecidableEq

/-- `docx_rs::TableRow::new(cells)`. -/
structure DocxTableRow where
  cells : List DocxTableCell
deriving DecidableEq

inductive Block where
  | paragraph (p : DocxParagraph)
  | table (rows : List DocxTableRow)
deriving DecidableEq

/-- The document body: the ordered block sequence that
`Docx::add_paragraph` appends to. -/
abbrev Docx := List Block

def Docx.add_paragraph (docx : Docx) (p : DocxParagraph) : Docx :=
  docx ++ [Block.paragraph p]

/-! ### Pass 2: `Emitter` -/

/-- `StackCounter` (`src/emitter.rs` lines 20-40); `u32` idealized as `Nat`
(reaching the wrap would need a nesting depth of 2^32, beyond any actual
recursion). -/
structure StackCounter where
  value_ : Nat
deriving DecidableEq

def StackCounter.new : StackCounter := ⟨0⟩

def StackCounter.push (self : StackCounter) : StackCounter :=
  ⟨self.value_ + 1⟩

/-- `pop`: decrement only when positive — popping a zero counter is a
no-op. -/
def StackCounter.pop (self : StackCounter) : StackCounter :=
  if self.value_ > 0 then ⟨self.value_ - 1⟩ else self

def StackCounter.set (self : StackCounter) : Bool := self.value_ > 0

inductive ListType where
  | ordered
  | unordered
deriving DecidableEq

/-- The `Emitter` state.  The `Vec<ListType>` stack is modelled with the
list head as the top (`Vec::push`/`last`/`pop` act on the vector's end);
the `table` row buffer keeps `Vec::push` order by appending at the end. -/
structure Emitter where
  strong_state : StackCounter
  base_path : Option Chars
  em_state : StackCounter
  list_type : List ListType
  image_references : RefMap
  table : List DocxTableRow
  table_cells : List DocxTableCell
  paragraph : DocxParagraph
  paragraph_alignment : Option AlignmentType
deriving DecidableEq

/-- `Emitter::new(base_path)` (all other fields `Default`). -/
def Emitter.new (base_path : Option Chars) : Emitter :=
  { strong_state := StackCounter.new
    base_path := base_path
    em_state := StackCounter.new
    list_type := []
    image_references := []
    table := []
    table_cells := []
    paragraph := DocxParagraph.new
    paragraph_alignment := none }

/-- `Emitter::set_image_refernces`. -/
def Emitter.set_image_refernces (self : Emitter) (image_references : RefMap) :
    Emitter :=
  { self with image_references := image_references }

/-- `Emitter::check_references`: the scan loop over `REF_REGEX`, looking
keys up in the single map the emitter holds (the figure namespace). -/
def Emitter.check_references (self : Emitter) (text : Chars) : Chars :=
  scanRefs (lookupRef self.image_references) text

/-- Text concatenation of `Emitter::visit_heading`: direct `Text` children
are concatenated raw, anything else is logged and skipped. -/
def heading_text (children : List Node) : Chars :=
  children.foldl
    (fun acc child =>
      match child with
      | Node.text value => acc ++ value
      | _ => acc)
    []

/-- `Emitter::add_heading`: depth-to-size table, one bold sized run. -/
def add_heading (docx : Docx) (text : Chars) (level : Nat) : Docx :=
  let size : Nat :=
    match level with
    | 1 => 36
    | 2 => 28
    | 3 => 24
    | _ => 20
  let heading_paragraph :=
    DocxParagraph.new.add_run
      { content := RunContent.text text, bold := true, italic := false, size := some size }
  docx.add_paragraph heading_paragraph

/-- `Emitter::visit_text`: newline-to-space, whitespace collapse,
reference resolution, then one run styled from the current counters, added
to the paragraph accumulator. -/
def visit_text (self : Emitter) (value : Chars) : Emitter :=
  let normalized_text := normalizeText value
  let textval := self.check_references normalized_text
  let run : DocxRun :=
    { content := RunContent.text textval
      bold := self.strong_state.set
      italic := self.em_state.set
      size := none }
  { self with paragraph := self.paragraph.add_run run }

/-- The reason `handle_image` can abort the whole conversion: the
`get_image_dimensions(&img_path).unwrap()` on an image file whose
dimensions cannot be decoded. -/
inductive Panic where
  | dimsUnwrap
deriving DecidableEq

/-- A centered italic placeholder paragraph (the three degraded branches of
`handle_image`). -/
def placeholder_paragraph (text : Chars) : DocxParagraph :=
  { runs := [{ content := RunContent.text text, bold := false, italic := true, size := none }]
    align := some AlignmentType.center
    indent := none
    numbering := none }

/-- `Emitter::handle_image`: resolve the path against `base_path`; on a
missing base path, a missing file or a read error, append a centered italic
placeholder paragraph and continue; on success decode dimensions (panicking
`unwrap` on failure), scale them, and append a centered image paragraph
plus a centered italic caption `Figure N[: title-or-alt]`. -/
def handle_image (env : Env) (self : Emitter) (docx : Docx) (url alt : Chars)
    (title : Option Chars) (figure_number : Nat) : Except Panic Docx :=
  match self.base_path with
  | some base_dir =>
    let img_path := path_join base_dir url
    match env.read_file img_path with
    | ReadResult.content buffer =>
      let res := env.parse_alt alt
      match get_image_dimensions env img_path with
      | none => Except.error Panic.dimsUnwrap
      | some (dim1, dim2) =>
        let dim1 := scale_dim res.scale dim1
        let dim2 := scale_dim res.scale dim2
        let pic : Pic := { bytes := buffer, w := dim1, h := dim2 }
        let img_paragraph : DocxParagraph :=
          { runs := [{ content := RunContent.image pic, bold := false, italic := false,
                       size := none }]
            align := some AlignmentType.center
            indent := none
            numbering := none }
        let docx := docx.add_paragraph img_paragraph
        let display_title := title.getD alt
        let caption_text :=
          if display_title.isEmpty then
            "Figure ".toList ++ natChars figure_number
          else
            "Figure ".toList ++ natChars figure_number ++ ": ".toList ++ display_title
        let caption_paragraph : DocxParagraph :=
          { runs := [{ content := RunContent.text caption_text, bold := false, italic := true,
                       size := none }]
            align := some AlignmentType.center
            indent := none
            numbering := none }
        Except.ok (docx.add_paragraph caption_paragraph)
    | ReadResult.readError _ =>
      Except.ok (docx.add_paragraph (placeholder_paragraph
        ("[Image: ".toList ++ img_path ++ " (could not read file)]".toList)))
    | ReadResult.notFound =>
      Except.ok (docx.add_paragraph (placeholder_paragraph
        ("[Image: ".toList ++ url ++ " (not found)]".toList)))
  | none =>
    Except.ok (docx.add_paragraph (placeholder_paragraph
      ("[Image: ".toList ++ url ++ "]".toList)))

/-- `Emitter::visit_image`: decode the alt, compute the figure number (a
keyed image uses the pass-1 map with fallback 0; an unkeyed image uses the
current map size plus one), then hand off to `handle_image`. -/
def visit_image (env : Env) (self : Emitter) (docx : Docx) (url alt : Chars)
    (title : Option Chars) : Except Panic Docx :=
  let res := env.parse_alt alt
  let figure_number :=
    match res.ref with
    | some reference => (lookupRef self.image_references reference).getD 0
    | none => RefMap.size self.image_references + 1
  handle_image env self docx url alt title figure_number

/-- The indent call of `visit_paragraph`:
`Paragraph::new().indent(Some(720), None, Some(720), None)`. -/
def paragraph_indent : ParaIndent :=
  { left := some 720, special_indent := none, indent_end := some 720, start_chars := none }

/-- Result of a pass 2 step: the updated emitter state and document, or the
panic that aborts the conversion. -/
abbrev EmitResult := Except Panic (Emitter × Docx)

mutual

/-- Pass 2 dispatch: `MarkdownNodeTraverser::process_node` for `Emitter` —
the overridden visitors of `src/emitter.rs` plus the trait defaults of
`src/traverser.rs` (unused containers `blockquote` and `link` recurse with
no other effect, every other unused kind is a no-op). -/
def process_node (env : Env) (st : Emitter) (docx : Docx) : Node → EmitResult
  | .root children => process_list env st docx children
  | .paragraph children =>
    -- visit_paragraph: fresh indented accumulator, reset alignment,
    -- process children, apply pending alignment, append the paragraph.
    let st :=
      { st with
        paragraph := { DocxParagraph.new with indent := some paragraph_indent }
        paragraph_alignment := none }
    match process_list env st docx children with
    | Except.error e => Except.error e
    | Except.ok (st', docx') =>
      let para :=
        match st'.paragraph_alignment with
        | some alignment => { st'.paragraph with align := some alignment }
        | none => st'.paragraph
      Except.ok ({ st' with paragraph := DocxParagraph.new }, docx'.add_paragraph para)
  | .heading depth children =>
    -- visit_heading: concatenate text children, emit one bold sized run.
    Except.ok (st, add_heading docx (heading_text children) depth)
  | .text value => Except.ok (visit_text st value, docx)
  | .strong children =>
    -- visit_strong: push the bold counter, recurse, pop on exit.
    match process_list env { st with strong_state := st.strong_state.push } docx children with
    | Except.error e => Except.error e
    | Except.ok (st', docx') =>
      Except.ok ({ st' with strong_state := st'.strong_state.pop }, docx')
  | .emphasis children =>
    -- visit_emphasis: push the italic counter, recurse, pop on exit.
    match process_list env { st with em_state := st.em_state.push } docx children with
    | Except.error e => Except.error e
    | Except.ok (st', docx') =>
      Except.ok ({ st' with em_state := st'.em_state.pop }, docx')
  | .list ordered children =>
    -- visit_list: push the list kind, process the items, pop.
    let kind := if ordered then ListType.ordered else ListType.unordered
    match process_list env { st with list_type := kind :: st.list_type } docx children with
    | Except.error e => Except.error e
    | Except.ok (st', docx') =>
      Except.ok ({ st' with list_type := st'.list_type.tail }, docx')
  | .listItem _ _ children =>
    -- visit_list_item (checkbox / spread markers are only logged).
    match st.list_type with
    | [] => Except.ok (st, docx)
    | top :: stack_rest =>
      let numbering_id : Nat :=
        match top with
        | ListType.ordered => 2
        | ListType.unordered => 1
      let indent_level := (top :: stack_rest).length - 1
      let st :=
        { st with
          paragraph := { DocxParagraph.new with numbering := some (numbering_id, indent_level) } }
      match process_item_children env st docx children with
      | Except.error e => Except.error e
      | Except.ok (st', docx') =>
        Except.ok ({ st' with paragraph := DocxParagraph.new },
          docx'.add_paragraph st'.paragraph)
  | .image url alt title =>
    match visit_image env st docx url alt title with
    | Except.error e => Except.error e
    | Except.ok docx' => Except.ok (st, docx')
  | .table children =>
    -- visit_table: clear the row buffer (the alignment vector is computed
    -- and discarded in the source), process the children, return the
    -- document unchanged by the table itself.
    process_list env { st with table := [] } docx children
  | .tableRow children =>
    -- visit_table_row: clear the cell buffer, process the cells, move the
    -- accumulated cells into a row of the internal table buffer.
    match process_list env { st with table_cells := [] } docx children with
    | Except.error e => Except.error e
    | Except.ok (st', docx') =>
      let cells := st'.table_cells
      let st'' := { st' with table_cells := [], table := st'.table ++ [DocxTableRow.mk cells] }
      Except.ok (st'', docx')
  | .tableCell _ => Except.ok (st, docx)
  | .blockquote children => process_list env st docx children
  | .link children => process_list env st docx children
  | .footnoteDefinition _ => Except.ok (st, docx)
  | .mdxJsxFlowElement _ => Except.ok (st, docx)
  | .mdxjsEsm _ => Except.ok (st, docx)
  | .toml _ => Except.ok (st, docx)
  | .yaml _ => Except.ok (st, docx)
  | .hardBreak => Except.ok (st, docx)
  | .inlineCode _ => Except.ok (st, docx)
  | .inlineMath _ => Except.ok (st, docx)
  | .delete _ => Except.ok (st, docx)
  | .mdxTextExpression _ => Except.ok (st, docx)
  | .footnoteReference _ => Except.ok (st, docx)
  | .html _ => Except.ok (st, docx)
  | .imageReference _ => Except.ok (st, docx)
  | .mdxJsxTextElement _ => Except.ok (st, docx)
  | .linkReference _ => Except.ok (st, docx)
  | .code _ => Except.ok (st, docx)
  | .math _ => Except.ok (st, docx)
  | .mdxFlowExpression _ => Except.ok (st, docx)
  | .thematicBreak => Except.ok (st, docx)
  | .definition _ => Except.ok (st, docx)

/-- Child loop of the pass 2 container handlers (`process_child` is the
trait default, i.e. `process_node`). -/
def process_list (env : Env) (st : Emitter) (docx : Docx) : List Node → EmitResult
  | [] => Except.ok (st, docx)
  | c :: cs =>
    match process_node env st docx c with
    | Except.error e => Except.error e
    | Except.ok (st', docx') => process_list env st' docx' cs

/-- Child loop of `visit_list_item`: a `Paragraph` child has its inline
children flattened into the item's own paragraph accumulator; any other
child goes through the normal dispatch. -/
def process_item_children (env : Env) (st : Emitter) (docx : Docx) :
    List Node → EmitResult
  | [] => Except.ok (st, docx)
  | Node.paragraph para_children :: cs =>
    match process_list env st docx para_children with
    | Except.error e => Except.error e
    | Except.ok (st', docx') => process_item_children env st' docx' cs
  | c :: cs =>
    match process_node env st docx c with
    | Except.error e => Except.error e
    | Except.ok (st', docx') => process_item_children env st' docx' cs

end

/-- The two sequential passes (`Parser::parse_to_docx`'s multi-pass core):
pass 1 collects the reference map over the whole tree, the collector's
`Into` conversion hands the figure namespace to the emitter, and only then
does pass 2 walk the same tree to produce the block sequence. -/
def run_passes (env : Env) (base_path : Option Chars) (ast : Node) : EmitResult :=
  process_node env
    ((Emitter.new base_path).set_image_refernces
      (collect_node env ImageReferenceCollector.init ast).intoMap)
    [] ast

/-! ### Pass 2 invariants -/

theorem StackCounter.pop_push (c : StackCounter) : c.push.pop = c := by
  simp [StackCounter.push, StackCounter.pop]

theorem StackCounter.pop_zero : StackCounter.new.pop = StackCounter.new := by
  simp [StackCounter.new, StackCounter.pop]

theorem visit_text_fields (st : Emitter) (v : Chars) :
    (visit_text st v).image_references = st.image_references ∧
    (visit_text st v).strong_state = st.strong_state ∧
    (visit_text st v).em_state = st.em_state ∧
    (visit_text st v).base_path = st.base_path ∧
    (visit_text st v).list_type = st.list_type := by
  simp [visit_text]

/-- Whatever branch `handle_image` takes, a successful return only appends
to the document. -/
theorem handle_image_appends (env : Env) (st : Emitter) (docx : Docx)
    (url alt : Chars) (title : Option Chars) (figure_number : Nat)
    (docx' : Docx)
    (h : handle_image env st docx url alt title figure_number = Except.ok docx') :
    ∃ tail, docx' = docx ++ tail := by
  unfold handle_image at h
  split at h
  · dsimp only at h
    split at h
    · split at h
      · exact absurd h (by simp)
      · injection h with h'
        exact ⟨_, by rw [← h']; simp only [Docx.add_paragraph, List.append_assoc]; rfl⟩
    · injection h with h'
      exact ⟨_, by rw [← h']; rfl⟩
    · injection h with h'
      exact ⟨_, by rw [← h']; rfl⟩
  · injection h with h'
    exact ⟨_, by rw [← h']; rfl⟩

theorem visit_image_appends (env : Env) (st : Emitter) (docx : Docx)
    (url alt : Chars) (title : Option Chars) (docx' : Docx)
    (h : visit_image env st docx url alt title = Except.ok docx') :
    ∃ tail, docx' = docx ++ tail := by
  unfold visit_image at h
  exact handle_image_appends env st docx url alt title _ docx' h

mutual

/-- Every pass 2 step that completes preserves the reference map, both
formatting counters, the base path and the list stack, and only appends to
the document. -/
theorem process_node_inv (env : Env) (st : Emitter) (docx : Docx) (n : Node)
    (st' : Emitter) (docx' : Docx)
    (h : process_node env st docx n = Except.ok (st', docx')) :
    st'.image_references = st.image_references ∧
    st'.strong_state = st.strong_state ∧
    st'.em_state = st.em_state ∧
    st'.base_path = st.base_path ∧
    st'.list_type = st.list_type ∧
    ∃ tail, docx' = docx ++ tail := by
  cases n
  case root children =>
    simp only [process_node] at h
    exact process_list_inv env st docx children st' docx' h
  case blockquote children =>
    simp only [process_node] at h
    exact process_list_inv env st docx children st' docx' h
  case link children =>
    simp only [process_node] at h
    exact process_list_inv env st docx children st' docx' h
  case table children =>
    simp only [process_node] at h
    have := process_list_inv env _ docx children st' docx' h
    simpa using this
  case paragraph children =>
    simp only [process_node] at h
    split at h
    · exact absurd h (by simp)
    · next st1 d1 heq =>
      simp only [Except.ok.injEq, Prod.mk.injEq] at h
      obtain ⟨hst, hd⟩ := h
      subst hst
      subst hd
      obtain ⟨a1, a2, a3, a4, a5, t1, ht1⟩ := process_list_inv env _ docx children st1 d1 heq
      refine ⟨a1, a2, a3, a4, a5, ?_⟩
      exact ⟨_, by rw [ht1]; simp only [Docx.add_paragraph, List.append_assoc]; rfl⟩
  case heading depth children =>
    simp only [process_node] at h
    simp only [add_heading, Except.ok.injEq, Prod.mk.injEq] at h
    obtain ⟨hst, hd⟩ := h
    subst hst
    refine ⟨rfl, rfl, rfl, rfl, rfl, ?_⟩
    exact ⟨_, by rw [← hd]; rfl⟩
  case text value =>
    simp only [process_node] at h
    simp only [Except.ok.injEq, Prod.mk.injEq] at h
    obtain ⟨hst, hd⟩ := h
    subst hst
    subst hd
    obtain ⟨h1, h2, h3, h4, h5⟩ := visit_text_fields st value
    exact ⟨h1, h2, h3, h4, h5, [], by simp⟩
  case strong children =>
    simp only [process_node] at h
    split at h
    · exact absurd h (by simp)
    · next st1 d1 heq =>
      simp only [Except.ok.injEq, Prod.mk.injEq] at h
      obtain ⟨hst, hd⟩ := h
      subst hst
      subst hd
      obtain ⟨a1, a2, a3, a4, a5, t1, ht1⟩ := process_list_inv env _ docx children st1 d1 heq
      refine ⟨a1, ?_, a3, a4, a5, t1, ht1⟩
      show st1.strong_state.pop = st.strong_state
      rw [a2]
      exact StackCounter.pop_push st.strong_state
  case emphasis children =>
    simp only [process_node] at h
    split at h
    · exact absurd h (by simp)
    · next st1 d1 heq =>
      simp only [Except.ok.injEq, Prod.mk.injEq] at h
      obtain ⟨hst, hd⟩ := h
      subst hst
      subst hd
      obtain ⟨a1, a2, a3, a4, a5, t1, ht1⟩ := process_list_inv env _ docx children st1 d1 heq
      refine ⟨a1, a2, ?_, a4, a5, t1, ht1⟩
      show st1.em_state.pop = st.em_state
      rw [a3]
      exact StackCounter.pop_push st.em_state
  case list ordered children =>
    simp only [process_node] at h
    split at h
    · exact absurd h (by simp)
    · next st1 d1 heq =>
      simp only [Except.ok.injEq, Prod.mk.injEq] at h
      obtain ⟨hst, hd⟩ := h
      subst hst
      subst hd
      obtain ⟨a1, a2, a3, a4, a5, t1, ht1⟩ := process_list_inv env _ docx children st1 d1 heq
      refine ⟨a1, a2, a3, a4, ?_, t1, ht1⟩
      show st1.list_type.tail = st.list_type
      rw [a5]
      rfl
  case listItem checked spread children =>
    simp only [process_node] at h
    split at h
    · next heq =>
      simp only [Except.ok.injEq, Prod.mk.injEq] at h
      obtain ⟨hst, hd⟩ := h
      subst hst
      subst hd
      exact ⟨rfl, rfl, rfl, rfl, rfl, [], by simp⟩
    · next top stack_rest heq =>
      split at h
      · exact absurd h (by simp)
      · next st1 d1 heq2 =>
        simp only [Except.ok.injEq, Prod.mk.injEq] at h
        obtain ⟨hst, hd⟩ := h
        subst hst
        subst hd
        obtain ⟨a1, a2, a3, a4, a5, t1, ht1⟩ :=
          process_item_children_inv env _ docx children st1 d1 heq2
        refine ⟨a1, a2, a3, a4, a5, ?_⟩
        exact ⟨_, by rw [ht1]; simp only [Docx.add_paragraph, List.append_assoc]; rfl⟩
  case image url alt title =>
    simp only [process_node] at h
    split at h
    · exact absurd h (by simp)
    · next d1 heq =>
      simp only [Except.ok.injEq, Prod.mk.injEq] at h
      obtain ⟨hst, hd⟩ := h
      subst hst
      subst hd
      exact ⟨rfl, rfl, rfl, rfl, rfl, visit_image_appends env st docx url alt title d1 heq⟩
  case tableRow children =>
    simp only [process_node] at h
    split at h
    · exact absurd h (by simp)
    · next st1 d1 heq =>
      simp only [Except.ok.injEq, Prod.mk.injEq] at h
      obtain ⟨hst, hd⟩ := h
      subst hst
      subst hd
      obtain ⟨a1, a2, a3, a4, a5, t1, ht1⟩ := process_list_inv env _ docx children st1 d1 heq
      exact ⟨a1, a2, a3, a4, a5, t1, ht1⟩
  all_goals
    simp only [process_node] at h
    simp only [Except.ok.injEq, Prod.mk.injEq] at h
    obtain ⟨hst, hd⟩ := h
    subst hst
    subst hd
    exact ⟨rfl, rfl, rfl, rfl, rfl, [], by simp⟩

/-- List version of `process_node_inv`. -/
theorem process_list_inv (env : Env) (st : Emitter) (docx : Docx)
    (cs : List Node) (st' : Emitter) (docx' : Docx)
    (h : process_list env st docx cs = Except.ok (st', docx')) :
    st'.image_references = st.image_references ∧
    st'.strong_state = st.strong_state ∧
    st'.em_state = st.em_state ∧
    st'.base_path = st.base_path ∧
    st'.list_type = st.list_type ∧
    ∃ tail, docx' = docx ++ tail := by
  cases cs with
  | nil =>
    simp only [process_list] at h
    simp only [Except.ok.injEq, Prod.mk.injEq] at h
    obtain ⟨hst, hd⟩ := h
    subst hst
    subst hd
    exact ⟨rfl, rfl, rfl, rfl, rfl, [], by simp⟩
  | cons c cs =>
    simp only [process_list] at h
    split at h
    · exact absurd h (by simp)
    · next st1 d1 heq =>
      obtain ⟨a1, a2, a3, a4, a5, t1, ht1⟩ := process_node_inv env st docx c st1 d1 heq
      obtain ⟨b1, b2, b3, b4, b5, t2, ht2⟩ := process_list_inv env st1 d1 cs st' docx' h
      refine ⟨b1.trans a1, b2.trans a2, b3.trans a3, b4.trans a4, b5.trans a5, t1 ++ t2, ?_⟩
      rw [ht2, ht1]
      simp

/-- List-item child loop version of `process_node_inv`. -/
theorem process_item_children_inv (env : Env) (st : Emitter) (docx : Docx)
    (cs : List Node) (st' : Emitter) (docx' : Docx)
    (h : process_item_children env st docx cs = Except.ok (st', docx')) :
    st'.image_references = st.image_references ∧
    st'.strong_state = st.strong_state ∧
    st'.em_state = st.em_state ∧
    st'.base_path = st.base_path ∧
    st'.list_type = st.list_type ∧
    ∃ tail, docx' = docx ++ tail := by
  cases cs with
  | nil =>
    simp only [process_item_children] at h
    simp only [Except.ok.injEq, Prod.mk.injEq] at h
    obtain ⟨hst, hd⟩ := h
    subst hst
    subst hd
    exact ⟨rfl, rfl, rfl, rfl, rfl, [], by simp⟩
  | cons c cs =>
    cases c
    case paragraph para_children =>
      simp only [process_item_children] at h
      split at h
      · exact absurd h (by simp)
      · next st1 d1 heq =>
        obtain ⟨a1, a2, a3, a4, a5, t1, ht1⟩ :=
          process_list_inv env st docx para_children st1 d1 heq
        obtain ⟨b1, b2, b3, b4, b5, t2, ht2⟩ :=
          process_item_children_inv env st1 d1 cs st' docx' h
        refine ⟨b1.trans a1, b2.trans a2, b3.trans a3, b4.trans a4, b5.trans a5, t1 ++ t2, ?_⟩
        rw [ht2, ht1]
        simp
    all_goals
      simp only [process_item_children] at h
      split at h
      · exact absurd h (by simp)
      · next st1 d1 heq =>
        obtain ⟨a1, a2, a3, a4, a5, t1, ht1⟩ := process_node_inv env st docx _ st1 d1 heq
        obtain ⟨b1, b2, b3, b4, b5, t2, ht2⟩ :=
          process_item_children_inv env st1 d1 cs st' docx' h
        refine ⟨b1.trans a1, b2.trans a2, b3.trans a3, b4.trans a4, b5.trans a5, t1 ++ t2, ?_⟩
        rw [ht2, ht1]
        simp

end

/-! ### Concrete test data for witnesses -/

/-- A concrete environment: `parse_alt` models the serde decoding of three
fixed alt-text payloads (two carrying ref `a`, one carrying ref `b`),
`parse_table_metadata` decodes one fixed cell payload with table ref `t`,
the filesystem has no files and no decodable image. -/
def sample_env : Env :=
  { parse_alt := fun alt =>
      if alt = "altA".toList then { scale := 1, ref := some "a".toList }
      else if alt = "altA2".toList then { scale := 1, ref := some "a".toList }
      else if alt = "altB".toList then { scale := 1, ref := some "b".toList }
      else ImageModifiers.default
    parse_table_metadata := fun s =>
      if s = "tmeta".toList then some { caption := "Cap".toList, ref := "t".toList }
      else none
    read_file := fun _ => ReadResult.notFound
    pixel_dims := fun _ => none }

/-! ### C2 -/

/-- C2: for every well-formed tree, the bold and italic depth counters are
zero before pass 2 starts (the fresh emitter) and zero again after it ends;
every completed step restores both counters to their entry values (each
`visit_strong`/`visit_emphasis` pushes on entry and pops on exit); and a
pop never underflows: on an already-zero counter it is a no-op (never a
panic), while a pop right after a push restores the counter exactly. -/
theorem c2_formatting_counters_balanced :
    (∀ base : Option Chars,
        (Emitter.new base).strong_state.value_ = 0 ∧
        (Emitter.new base).em_state.value_ = 0) ∧
    (∀ (env : Env) (base : Option Chars) (ast : Node) (st' : Emitter) (docx' : Docx),
        run_passes env base ast = Except.ok (st', docx') →
        st'.strong_state.value_ = 0 ∧ st'.em_state.value_ = 0) ∧
    (∀ (env : Env) (st : Emitter) (docx : Docx) (n : Node) (st' : Emitter) (docx' : Docx),
        process_node env st docx n = Except.ok (st', docx') →
        st'.strong_state = st.strong_state ∧ st'.em_state = st.em_state) ∧
    (∀ c : StackCounter, c.value_ = 0 → c.pop = c) ∧
    (∀ c : StackCounter, c.push.pop = c) := by
  refine ⟨?_, ?_, ?_, ?_, ?_⟩
  · intro base
    exact ⟨rfl, rfl⟩
  · intro env base ast st' docx' h
    unfold run_passes at h
    obtain ⟨_, h2, h3, _, _, _⟩ := process_node_inv env _ [] ast st' docx' h
    constructor
    · rw [h2]; rfl
    · rw [h3]; rfl
  · intro env st docx n st' docx' h
    obtain ⟨_, h2, h3, _, _, _⟩ := process_node_inv env st docx n st' docx' h
    exact ⟨h2, h3⟩
  · intro c h
    simp [StackCounter.pop, h]
  · exact StackCounter.pop_push

/-- Witness for C2 at a concrete tree: a document with nested
strong/emphasis completes pass 2 with both counters back at zero. -/
theorem c2_formatting_counters_balanced_witness :
    (Emitter.new none).strong_state.value_ = 0 ∧
    ((StackCounter.mk 0).value_ = 0 ∧ (StackCounter.mk 0).pop = StackCounter.mk 0) ∧
    ∃ r, run_passes sample_env none
        (Node.root [Node.paragraph
          [Node.strong [Node.emphasis [Node.text "deep".toList]]]]) =
          Except.ok r ∧ r.1.strong_state.value_ = 0 ∧ r.1.em_state.value_ = 0 := by
  refine ⟨(c2_formatting_counters_balanced.1 none).1,
    ⟨rfl, c2_formatting_counters_balanced.2.2.2.1 (StackCounter.mk 0) rfl⟩, ?_⟩
  have hrun : run_passes sample_env none
      (Node.root [Node.paragraph
        [Node.strong [Node.emphasis [Node.text "deep".toList]]]]) =
      Except.ok ({ Emitter.new none with
          paragraph := DocxParagraph.new, paragraph_alignment := none },
        [Block.paragraph
          { runs := [{ content := RunContent.text "deep".toList, bold := true, italic := true,
                       size := none }]
            align := none, indent := some paragraph_indent, numbering := none }]) := by
    rfl
  refine ⟨_, hrun, ?_⟩
  exact c2_formatting_counters_balanced.2.1 sample_env none _ _ _ hrun

/-! ### C5 -/

/-- C5: the resolver never alters text it cannot resolve.  A text with no
placeholder token is returned unchanged character for character; and a
placeholder whose key is not in the emitter's reference map is left
verbatim in the output, with the scan resuming after the token (the scan is
a total function — it cannot crash). -/
theorem c5_unresolved_text_unchanged :
    (∀ (st : Emitter) (s : Chars), hasRef s = false → st.check_references s = s) ∧
    (∀ (st : Emitter) (pre pad k post : Chars),
        '{' ∉ pre → (∀ c ∈ pad, isWsChar c = true) → '}' ∉ k →
        k.dropWhile isWsChar = k →
        lookupRef st.image_references k = none →
        st.check_references (pre ++ refToken (pad ++ k) ++ post) =
          pre ++ refToken (pad ++ k) ++ st.check_references post) := by
  constructor
  · intro st s h
    exact scanRefs_no_match (lookupRef st.image_references) s h
  · intro st pre pad k post hpre hpad hk hkey hmiss
    have := scanRefs_split (lookupRef st.image_references) pre pad k post hpre hpad hk hkey
    rw [hmiss] at this
    exact this

/-- Witness for C5: a map knowing only `fig`; a plain text round-trips, and
an unknown `missing` key leaves its token verbatim. -/
theorem c5_unresolved_text_unchanged_witness :
    (hasRef "no tokens here".toList = false ∧
      ((Emitter.new none).set_image_refernces [("fig".toList, 1)]).check_references
        "no tokens here".toList = "no tokens here".toList) ∧
    ((Emitter.new none).set_image_refernces [("fig".toList, 1)]).check_references
        ("see ".toList ++ refToken (' ' :: "missing".toList) ++ "!".toList) =
      "see ".toList ++ refToken (' ' :: "missing".toList) ++
        ((Emitter.new none).set_image_refernces [("fig".toList, 1)]).check_references
          "!".toList := by
  constructor
  · exact ⟨by decide,
      c5_unresolved_text_unchanged.1
        ((Emitter.new none).set_image_refernces [("fig".toList, 1)])
        "no tokens here".toList (by decide)⟩
  · have :=
      c5_unresolved_text_unchanged.2
        ((Emitter.new none).set_image_refernces [("fig".toList, 1)])
        "see ".toList [' '] "missing".toList "!".toList
        (by decide) (by decide) (by decide) (by decide) (by decide)
    simpa using this

/-! ### C4 -/

/-- C4: when an image declares a `ref` key that is already registered, the
first registration is kept: the duplicate registration leaves the figure
map unchanged (the counter still advances, but nothing is overwritten), and
any placeholder referencing that key keeps resolving to the first image's
number. -/
theorem c4_duplicate_ref_first_wins :
    (∀ (env : Env) (col : ImageReferenceCollector) (alt k : Chars) (n : Nat),
        (env.parse_alt alt).ref = some k →
        lookupRef col.image_references k = some n →
        (collector_visit_image env col alt).image_references = col.image_references ∧
        (collector_visit_image env col alt).image_count = col.image_count + 1) ∧
    (∀ (m : RefMap) (pre pad k post : Chars) (n : Nat),
        '{' ∉ pre → (∀ c ∈ pad, isWsChar c = true) → '}' ∉ k →
        k.dropWhile isWsChar = k →
        lookupRef m k = some n →
        scanRefs (lookupRef m) (pre ++ refToken (pad ++ k) ++ post) =
          pre ++ figureText n ++ scanRefs (lookupRef m) post) := by
  constructor
  · intro env col alt k n href hdup
    simp only [collector_visit_image, href, hdup]
    exact ⟨trivial, trivial⟩
  · intro m pre pad k post n hpre hpad hk hkey hhit
    have := scanRefs_split (lookupRef m) pre pad k post hpre hpad hk hkey
    rw [hhit] at this
    exact this

/-- Witness for C4: two images both declaring ref `a`; after the duplicate
the map still holds `a -> 1`, and the placeholder resolves to Figure 1. -/
theorem c4_duplicate_ref_first_wins_witness :
    ((sample_env.parse_alt "altA2".toList).ref = some "a".toList ∧
      (collector_visit_image sample_env
          (collector_visit_image sample_env ImageReferenceCollector.init "altA".toList)
          "altA2".toList).image_references =
        (collector_visit_image sample_env ImageReferenceCollector.init
          "altA".toList).image_references) ∧
    scanRefs (lookupRef [("a".toList, 1)]) (refToken "a".toList) =
      "Figure 1".toList := by
  constructor
  · refine ⟨by decide, ?_⟩
    exact (c4_duplicate_ref_first_wins.1 sample_env
        (collector_visit_image sample_env ImageReferenceCollector.init "altA".toList)
        "altA2".toList "a".toList 1 (by decide) (by decide)).1
  · have := c4_duplicate_ref_first_wins.2 [("a".toList, 1)] [] [] "a".toList [] 1
      (by decide) (by decide) (by decide) (by decide) (by decide)
    simpa [figureText, natChars, Nat.repr] using this

/-! ### C9 -/

/-- C9: pass 1 increments the figure counter for every image whose alt text
carries a `ref` key, duplicates included — a duplicate consumes the next
figure number without registering it, so keys a, a, b collected in order
yield the assignments a -> 1 and b -> 3 with a final counter of 3. -/
theorem c9_duplicate_consumes_number :
    (∀ (env : Env) (col : ImageReferenceCollector) (alt k : Chars),
        (env.parse_alt alt).ref = some k →
        (collector_visit_image env col alt).image_count = col.image_count + 1) ∧
    (∀ (env : Env) (alt1 alt2 alt3 a b u1 u2 u3 : Chars)
        (t1 t2 t3 : Option Chars),
        (env.parse_alt alt1).ref = some a →
        (env.parse_alt alt2).ref = some a →
        (env.parse_alt alt3).ref = some b →
        a ≠ b →
        (collect_node env ImageReferenceCollector.init
            (Node.root [Node.image u1 alt1 t1, Node.image u2 alt2 t2,
              Node.image u3 alt3 t3])).image_count = 3 ∧
        lookupRef (collect_node env ImageReferenceCollector.init
            (Node.root [Node.image u1 alt1 t1, Node.image u2 alt2 t2,
              Node.image u3 alt3 t3])).image_references a = some 1 ∧
        lookupRef (collect_node env ImageReferenceCollector.init
            (Node.root [Node.image u1 alt1 t1, Node.image u2 alt2 t2,
              Node.image u3 alt3 t3])).image_references b = some 3) := by
  constructor
  · intro env col alt k href
    simp only [collector_visit_image, href]
    cases hl : lookupRef col.image_references k
    · simp [hl]
    · simp [hl]
  · intro env alt1 alt2 alt3 a b u1 u2 u3 t1 t2 t3 h1 h2 h3 hab
    simp [collect_node, collect_list, collector_visit_image,
      ImageReferenceCollector.init, lookupRef, h1, h2, h3, hab, Ne.symm hab]

/-- Witness for C9: the concrete alt payloads a, a, b through pass 1. -/
theorem c9_duplicate_consumes_number_witness :
    ((sample_env.parse_alt "altA".toList).ref = some "a".toList ∧
      (collector_visit_image sample_env ImageReferenceCollector.init
        "altA".toList).image_count = 1) ∧
    (collect_node sample_env ImageReferenceCollector.init
        (Node.root [Node.image "u1".toList "altA".toList none,
          Node.image "u2".toList "altA2".toList none,
          Node.image "u3".toList "altB".toList none])).image_count = 3 ∧
    lookupRef (collect_node sample_env ImageReferenceCollector.init
        (Node.root [Node.image "u1".toList "altA".toList none,
          Node.image "u2".toList "altA2".toList none,
          Node.image "u3".toList "altB".toList none])).image_references
      "a".toList = some 1 ∧
    lookupRef (collect_node sample_env ImageReferenceCollector.init
        (Node.root [Node.image "u1".toList "altA".toList none,
          Node.image "u2".toList "altA2".toList none,
          Node.image "u3".toList "altB".toList none])).image_references
      "b".toList = some 3 := by
  refine ⟨⟨by decide, ?_⟩, ?_⟩
  · exact c9_duplicate_consumes_number.1 sample_env ImageReferenceCollector.init
      "altA".toList "a".toList (by decide)
  · exact c9_duplicate_consumes_number.2 sample_env "altA".toList "altA2".toList
      "altB".toList "a".toList "b".toList "u1".toList "u2".toList "u3".toList
      none none none (by decide) (by decide) (by decide) (by decide)

/-! ### C3 -/

/-- A document whose table registers key `t` in the table namespace and
whose text carries the placeholder for `t`. -/
def table_ref_tree : Node :=
  Node.root
    [ Node.table [Node.tableRow [Node.tableCell [Node.text "tmeta".toList]]]
    , Node.paragraph [Node.text (refToken (' ' :: "t".toList))] ]

/-- Counterexample to C3 as stated: after pass 1 the key `t` is registered
in the *table* namespace with number 1, yet the pass 2 resolver
(`Emitter::check_references`, fed through the collector's `Into`
conversion, which keeps only the figure namespace) leaves the placeholder
verbatim instead of replacing it with "Table 1". -/
theorem c3_counterexample_table_key_unresolved :
    lookupRef (collect_node sample_env ImageReferenceCollector.init
        table_ref_tree).table_references "t".toList = some 1 ∧
    ((Emitter.new none).set_image_refernces
        (collect_node sample_env ImageReferenceCollector.init
          table_ref_tree).intoMap).check_references
        (refToken (' ' :: "t".toList)) = refToken (' ' :: "t".toList) ∧
    ((Emitter.new none).set_image_refernces
        (collect_node sample_env ImageReferenceCollector.init
          table_ref_tree).intoMap).check_references
        (refToken (' ' :: "t".toList)) ≠ "Table 1".toList := by
  refine ⟨by decide, by decide, by decide⟩

/-- C3 amended: the figure-first-then-table lookup producing "Figure N" /
"Table N" exists only in `ImageReferenceCollector::get` (used for table
captions); the pass-2 text resolver `Emitter::check_references` receives
only the figure namespace (the collector's `Into` conversion discards the
table namespace) and therefore replaces a found key with "Figure N" and
never with "Table N". -/
theorem c3_lookup_order_amended :
    (∀ (col : ImageReferenceCollector) (k : Chars) (n : Nat),
        lookupRef col.image_references k = some n →
        col.get k = some ("Figure ".toList ++ natChars n)) ∧
    (∀ (col : ImageReferenceCollector) (k : Chars) (n : Nat),
        lookupRef col.image_references k = none →
        lookupRef col.table_references k = some n →
        col.get k = some ("Table ".toList ++ natChars n)) ∧
    (∀ col : ImageReferenceCollector, col.intoMap = col.image_references) ∧
    (∀ (st : Emitter) (pre pad k post : Chars) (n : Nat),
        '{' ∉ pre → (∀ c ∈ pad, isWsChar c = true) → '}' ∉ k →
        k.dropWhile isWsChar = k →
        lookupRef st.image_references k = some n →
        st.check_references (pre ++ refToken (pad ++ k) ++ post) =
          pre ++ figureText n ++ st.check_references post) := by
  refine ⟨?_, ?_, ?_, ?_⟩
  · intro col k n h
    simp [ImageReferenceCollector.get, h]
  · intro col k n h1 h2
    simp [ImageReferenceCollector.get, h1, h2]
  · intro col
    rfl
  · intro st pre pad k post n hpre hpad hk hkey hhit
    have := scanRefs_split (lookupRef st.image_references) pre pad k post hpre hpad hk hkey
    rw [hhit] at this
    exact this

/-- Witness for the amended C3 at concrete states: a collector holding
figure `f -> 2` and table `t -> 1` answers `get` figure-first; the emitter
map resolves the `f` placeholder to Figure 2. -/
theorem c3_lookup_order_amended_witness :
    (ImageReferenceCollector.mk 2 [("f".toList, 2)] 1 [("t".toList, 1)]).get
        "f".toList = some "Figure 2".toList ∧
    (ImageReferenceCollector.mk 2 [("f".toList, 2)] 1 [("t".toList, 1)]).get
        "t".toList = some "Table 1".toList ∧
    (ImageReferenceCollector.mk 2 [("f".toList, 2)] 1 [("t".toList, 1)]).intoMap =
      [("f".toList, 2)] ∧
    ((Emitter.new none).set_image_refernces [("f".toList, 2)]).check_references
        (refToken "f".toList) =
      "Figure 2".toList := by
  refine ⟨?_, ?_, ?_, ?_⟩
  · have := c3_lookup_order_amended.1
      (ImageReferenceCollector.mk 2 [("f".toList, 2)] 1 [("t".toList, 1)])
      "f".toList 2 (by decide)
    simpa using this
  · have := c3_lookup_order_amended.2.1
      (ImageReferenceCollector.mk 2 [("f".toList, 2)] 1 [("t".toList, 1)])
      "t".toList 1 (by decide) (by decide)
    simpa using this
  · exact c3_lookup_order_amended.2.2.1 _
  · have := c3_lookup_order_amended.2.2.2
      ((Emitter.new none).set_image_refernces [("f".toList, 2)])
      [] [] "f".toList [] 2 (by decide) (by decide) (by decide) (by decide) (by decide)
    simpa [figureText, natChars, Nat.repr] using this

/-! ### C10 -/

/-- Are all elements table cells? (the shape `visit_table_row` children
have in an mdast table). -/
def cells_only : List Node → Bool
  | [] => true
  | Node.tableCell _ :: rest => cells_only rest
  | _ => false

/-- Are all elements table rows made of table cells? (the shape
`visit_table` children have in an mdast table). -/
def rows_only : List Node → Bool
  | [] => true
  | Node.tableRow cells :: rest => cells_only cells && rows_only rest
  | _ => false

theorem process_cells_id (env : Env) :
    ∀ (cells : List Node) (st : Emitter) (docx : Docx), cells_only cells = true →
      process_list env st docx cells = Except.ok (st, docx) := by
  intro cells
  induction cells with
  | nil => intro st docx _; rfl
  | cons c rest ih =>
    intro st docx h
    cases c <;> simp [cells_only] at h
    case tableCell cs =>
      simp only [process_list, process_node]
      exact ih st docx h

theorem process_rows_docx_id (env : Env) :
    ∀ (rows : List Node) (st : Emitter) (docx : Docx), rows_only rows = true →
      ∃ st', process_list env st docx rows = Except.ok (st', docx) := by
  intro rows
  induction rows with
  | nil => intro st docx _; exact ⟨st, rfl⟩
  | cons r rest ih =>
    intro st docx h
    cases r <;> simp [rows_only] at h
    case tableRow cells =>
      obtain ⟨hc, hr⟩ := h
      simp only [process_list, process_node]
      rw [process_cells_id env cells { st with table_cells := [] } docx hc]
      exact ih _ docx hr

/-- C10: during pass 2, a table node whose children are rows of cells
leaves the output block sequence exactly unchanged — the table-cell
visitor is a no-op on the document (its children are not even dispatched),
and the rows the table-row visitor accumulates in the emitter's internal
`table` buffer are never appended to the output. -/
theorem c10_tables_emit_nothing :
    (∀ (env : Env) (st : Emitter) (docx : Docx) (rows : List Node),
        rows_only rows = true →
        ∃ st', process_node env st docx (Node.table rows) = Except.ok (st', docx)) ∧
    (∀ (env : Env) (st : Emitter) (docx : Docx) (cellChildren : List Node),
        process_node env st docx (Node.tableCell cellChildren) = Except.ok (st, docx)) := by
  constructor
  · intro env st docx rows h
    simp only [process_node]
    exact process_rows_docx_id env rows { st with table := [] } docx h
  · intro env st docx cellChildren
    rfl

/-- Witness for C10: a one-row, one-cell table with text content emits no
block at all. -/
theorem c10_tables_emit_nothing_witness :
    rows_only [Node.tableRow [Node.tableCell [Node.text "cell".toList]]] = true ∧
    ∃ st', process_node sample_env (Emitter.new none)
        [Block.paragraph DocxParagraph.new]
        (Node.table [Node.tableRow [Node.tableCell [Node.text "cell".toList]]]) =
      Except.ok (st', [Block.paragraph DocxParagraph.new]) := by
  refine ⟨by decide, ?_⟩
  exact c10_tables_emit_nothing.1 sample_env (Emitter.new none)
    [Block.paragraph DocxParagraph.new]
    [Node.tableRow [Node.tableCell [Node.text "cell".toList]]] (by decide)

/-! ### C7 -/

mutual

/-- Does the tree contain an image node anywhere?  (Syntactic, over every
child list — the only pass 2 handler with a failure path is the image
handler.) -/
def node_has_image : Node → Bool
  | .image _ _ _ => true
  | .root cs => list_has_image cs
  | .paragraph cs => list_has_image cs
  | .heading _ cs => list_has_image cs
  | .strong cs => list_has_image cs
  | .emphasis cs => list_has_image cs
  | .list _ cs => list_has_image cs
  | .listItem _ _ cs => list_has_image cs
  | .blockquote cs => list_has_image cs
  | .footnoteDefinition cs => list_has_image cs
  | .mdxJsxFlowElement cs => list_has_image cs
  | .delete cs => list_has_image cs
  | .mdxJsxTextElement cs => list_has_image cs
  | .link cs => list_has_image cs
  | .linkReference cs => list_has_image cs
  | .table cs => list_has_image cs
  | .tableRow cs => list_has_image cs
  | .tableCell cs => list_has_image cs
  | _ => false

def list_has_image : List Node → Bool
  | [] => false
  | c :: cs => node_has_image c || list_has_image cs

end

mutual

/-- Pass 2 never fails on an image-free tree: every handler other than the
image handler is total. -/
theorem process_node_ok_of_no_image (env : Env) (st : Emitter) (docx : Docx)
    (n : Node) (h : node_has_image n = false) :
    ∃ r, process_node env st docx n = Except.ok r := by
  cases n
  case image url alt title => simp [node_has_image] at h
  case root children =>
    simp only [process_node]
    exact process_list_ok_of_no_image env st docx children (by simpa [node_has_image] using h)
  case blockquote children =>
    simp only [process_node]
    exact process_list_ok_of_no_image env st docx children (by simpa [node_has_image] using h)
  case link children =>
    simp only [process_node]
    exact process_list_ok_of_no_image env st docx children (by simpa [node_has_image] using h)
  case table children =>
    simp only [process_node]
    exact process_list_ok_of_no_image env _ docx children (by simpa [node_has_image] using h)
  case paragraph children =>
    simp only [process_node]
    obtain ⟨⟨st1, d1⟩, hr⟩ :=
      process_list_ok_of_no_image env
        { st with
          paragraph := { DocxParagraph.new with indent := some paragraph_indent }
          paragraph_alignment := none }
        docx children (by simpa [node_has_image] using h)
    rw [hr]
    exact ⟨_, rfl⟩
  case strong children =>
    simp only [process_node]
    obtain ⟨⟨st1, d1⟩, hr⟩ := process_list_ok_of_no_image env
      { st with strong_state := st.strong_state.push } docx children
      (by simpa [node_has_image] using h)
    rw [hr]
    exact ⟨_, rfl⟩
  case emphasis children =>
    simp only [process_node]
    obtain ⟨⟨st1, d1⟩, hr⟩ := process_list_ok_of_no_image env
      { st with em_state := st.em_state.push } docx children
      (by simpa [node_has_image] using h)
    rw [hr]
    exact ⟨_, rfl⟩
  case list ordered children =>
    simp only [process_node]
    obtain ⟨⟨st1, d1⟩, hr⟩ := process_list_ok_of_no_image env
      { st with list_type :=
          (if ordered then ListType.ordered else ListType.unordered) :: st.list_type }
      docx children (by simpa [node_has_image] using h)
    rw [hr]
    exact ⟨_, rfl⟩
  case listItem checked spread children =>
    simp only [process_node]
    split
    · exact ⟨_, rfl⟩
    · obtain ⟨⟨st1, d1⟩, hr⟩ := process_item_children_ok_of_no_image env
        _ docx children (by simpa [node_has_image] using h)
      rw [hr]
      exact ⟨_, rfl⟩
  case tableRow children =>
    simp only [process_node]
    obtain ⟨⟨st1, d1⟩, hr⟩ := process_list_ok_of_no_image env
      { st with table_cells := [] } docx children (by simpa [node_has_image] using h)
    rw [hr]
    exact ⟨_, rfl⟩
  all_goals exact ⟨_, rfl⟩

theorem process_list_ok_of_no_image (env : Env) (st : Emitter) (docx : Docx)
    (cs : List Node) (h : list_has_image cs = false) :
    ∃ r, process_list env st docx cs = Except.ok r := by
  cases cs with
  | nil => exact ⟨_, rfl⟩
  | cons c cs =>
    simp only [list_has_image, Bool.or_eq_false_iff] at h
    obtain ⟨h1, h2⟩ := h
    obtain ⟨⟨st1, d1⟩, hr⟩ := process_node_ok_of_no_image env st docx c h1
    simp only [process_list]
    rw [hr]
    exact process_list_ok_of_no_image env st1 d1 cs h2

theorem process_item_children_ok_of_no_image (env : Env) (st : Emitter) (docx : Docx)
    (cs : List Node) (h : list_has_image cs = false) :
    ∃ r, process_item_children env st docx cs = Except.ok r := by
  cases cs with
  | nil => exact ⟨_, rfl⟩
  | cons c cs =>
    simp only [list_has_image, Bool.or_eq_false_iff] at h
    obtain ⟨h1, h2⟩ := h
    cases c
    case paragraph para_children =>
      obtain ⟨⟨st1, d1⟩, hr⟩ := process_list_ok_of_no_image env st docx para_children
        (by simpa [node_has_image] using h1)
      simp only [process_item_children]
      rw [hr]
      exact process_item_children_ok_of_no_image env st1 d1 cs h2
    all_goals {
      obtain ⟨⟨st1, d1⟩, hr⟩ := process_node_ok_of_no_image env st docx _ h1
      simp only [process_item_children]
      rw [hr]
      exact process_item_children_ok_of_no_image env st1 d1 cs h2 }

end

/-- C7: the dispatcher has a defined handler for every variant of the
closed node set (`process_node` is total by construction over `Node`), the
unused container kinds recurse into their children with no other effect
(`blockquote`, `link` are exactly the child fold), every other unused kind
is a no-op that returns state and document untouched, and consequently
pass 2 never hard-aborts on an unsupported node kind: any image-free tree
(the image handler being the only one with a failure path, see C6)
processes to a successful result. -/
theorem c7_unsupported_kinds_degrade :
    (∀ (env : Env) (st : Emitter) (docx : Docx) (cs : List Node),
        process_node env st docx (Node.blockquote cs) = process_list env st docx cs ∧
        process_node env st docx (Node.link cs) = process_list env st docx cs) ∧
    (∀ (env : Env) (st : Emitter) (docx : Docx) (v : Chars) (cs : List Node),
        process_node env st docx (Node.footnoteDefinition cs) = Except.ok (st, docx) ∧
        process_node env st docx (Node.mdxJsxFlowElement cs) = Except.ok (st, docx) ∧
        process_node env st docx (Node.mdxjsEsm v) = Except.ok (st, docx) ∧
        process_node env st docx (Node.toml v) = Except.ok (st, docx) ∧
        process_node env st docx (Node.yaml v) = Except.ok (st, docx) ∧
        process_node env st docx Node.hardBreak = Except.ok (st, docx) ∧
        process_node env st docx (Node.inlineCode v) = Except.ok (st, docx) ∧
        process_node env st docx (Node.inlineMath v) = Except.ok (st, docx) ∧
        process_node env st docx (Node.delete cs) = Except.ok (st, docx) ∧
        process_node env st docx (Node.mdxTextExpression v) = Except.ok (st, docx) ∧
        process_node env st docx (Node.footnoteReference v) = Except.ok (st, docx) ∧
        process_node env st docx (Node.html v) = Except.ok (st, docx) ∧
        process_node env st docx (Node.imageReference v) = Except.ok (st, docx) ∧
        process_node env st docx (Node.mdxJsxTextElement cs) = Except.ok (st, docx) ∧
        process_node env st docx (Node.linkReference cs) = Except.ok (st, docx) ∧
        process_node env st docx (Node.code v) = Except.ok (st, docx) ∧
        process_node env st docx (Node.math v) = Except.ok (st, docx) ∧
        process_node env st docx (Node.mdxFlowExpression v) = Except.ok (st, docx) ∧
        process_node env st docx Node.thematicBreak = Except.ok (st, docx) ∧
        process_node env st docx (Node.definition v) = Except.ok (st, docx)) ∧
    (∀ (env : Env) (st : Emitter) (docx : Docx) (n : Node),
        node_has_image n = false →
        ∃ r, process_node env st docx n = Except.ok r) := by
  refine ⟨?_, ?_, ?_⟩
  · intro env st docx cs
    exact ⟨rfl, rfl⟩
  · intro env st docx v cs
    exact ⟨rfl, rfl, rfl, rfl, rfl, rfl, rfl, rfl, rfl, rfl, rfl, rfl, rfl, rfl, rfl,
      rfl, rfl, rfl, rfl, rfl⟩
  · exact process_node_ok_of_no_image

/-- Witness for C7: a tree mixing unsupported kinds (blockquote, html,
math, delete) around a paragraph completes pass 2 successfully. -/
theorem c7_unsupported_kinds_degrade_witness :
    node_has_image (Node.root
      [ Node.blockquote [Node.paragraph [Node.text "q".toList]]
      , Node.html "<hr>".toList
      , Node.math "x^2".toList
      , Node.delete [Node.text "gone".toList]
      , Node.thematicBreak ]) = false ∧
    ∃ r, process_node sample_env (Emitter.new none) [] (Node.root
      [ Node.blockquote [Node.paragraph [Node.text "q".toList]]
      , Node.html "<hr>".toList
      , Node.math "x^2".toList
      , Node.delete [Node.text "gone".toList]
      , Node.thematicBreak ]) = Except.ok r := by
  refine ⟨by decide, ?_⟩
  exact c7_unsupported_kinds_degrade.2.2 sample_env (Emitter.new none) [] _ (by decide)

/-! ### C6 -/

/-- C6 amended: when the base path is absent, the image file is missing,
or its bytes cannot be read, `handle_image` appends one centered italic
placeholder paragraph describing the failure and the pass continues with
the emitter state untouched.  However, the claim's "handling an image
never aborts or panics" does not hold on the remaining branch: when the
file exists and its bytes are read but its pixel dimensions cannot be
decoded, the `get_image_dimensions(..).unwrap()` panic aborts the
conversion. -/
theorem c6_missing_image_degrades_amended :
    (∀ (env : Env) (st : Emitter) (docx : Docx) (url alt : Chars)
        (title : Option Chars),
        st.base_path = none →
        process_node env st docx (Node.image url alt title) =
          Except.ok (st, docx ++ [Block.paragraph (placeholder_paragraph
            ("[Image: ".toList ++ url ++ "]".toList))])) ∧
    (∀ (env : Env) (st : Emitter) (docx : Docx) (url alt : Chars)
        (title : Option Chars) (base : Chars),
        st.base_path = some base →
        env.read_file (path_join base url) = ReadResult.notFound →
        process_node env st docx (Node.image url alt title) =
          Except.ok (st, docx ++ [Block.paragraph (placeholder_paragraph
            ("[Image: ".toList ++ url ++ " (not found)]".toList))])) ∧
    (∀ (env : Env) (st : Emitter) (docx : Docx) (url alt : Chars)
        (title : Option Chars) (base msg : Chars),
        st.base_path = some base →
        env.read_file (path_join base url) = ReadResult.readError msg →
        process_node env st docx (Node.image url alt title) =
          Except.ok (st, docx ++ [Block.paragraph (placeholder_paragraph
            ("[Image: ".toList ++ path_join base url ++
              " (could not read file)]".toList))])) ∧
    (∀ (env : Env) (st : Emitter) (docx : Docx) (url alt : Chars)
        (title : Option Chars) (base : Chars) (bytes : List Nat),
        st.base_path = some base →
        env.read_file (path_join base url) = ReadResult.content bytes →
        env.pixel_dims (path_join base url) = none →
        process_node env st docx (Node.image url alt title) =
          Except.error Panic.dimsUnwrap) := by
  refine ⟨?_, ?_, ?_, ?_⟩
  · intro env st docx url alt title hb
    simp [process_node, visit_image, handle_image, hb, Docx.add_paragraph]
  · intro env st docx url alt title base hb hr
    simp [process_node, visit_image, handle_image, hb, hr, Docx.add_paragraph]
  · intro env st docx url alt title base msg hb hr
    simp [process_node, visit_image, handle_image, hb, hr, Docx.add_paragraph]
  · intro env st docx url alt title base bytes hb hr hd
    simp [process_node, visit_image, handle_image, get_image_dimensions, hb, hr, hd]

/-- An environment whose single file exists and reads fine but is not a
decodable image (dimension decoding fails). -/
def undecodable_env : Env :=
  { parse_alt := fun _ => ImageModifiers.default
    parse_table_metadata := fun _ => none
    read_file := fun _ => ReadResult.content [137, 80, 78, 71]
    pixel_dims := fun _ => none }

/-- Counterexample to C6 as stated ("handling an image never aborts or
panics the conversion"): an image file that exists and is readable but has
undecodable dimensions makes pass 2 abort with the `unwrap` panic. -/
theorem c6_counterexample_dims_unwrap_panics :
    process_node undecodable_env (Emitter.new (some "base".toList)) []
      (Node.image "img.png".toList "".toList none) =
      Except.error Panic.dimsUnwrap := by
  rfl

/-- Witness for the amended C6: all three degraded branches at concrete
inputs (no base path; file not found; read error). -/
theorem c6_missing_image_degrades_amended_witness :
    ((Emitter.new none).base_path = none ∧
      process_node sample_env (Emitter.new none) []
        (Node.image "img.png".toList "alt".toList none) =
        Except.ok (Emitter.new none, [Block.paragraph (placeholder_paragraph
          ("[Image: ".toList ++ "img.png".toList ++ "]".toList))])) ∧
    process_node sample_env (Emitter.new (some "dir".toList)) []
      (Node.image "img.png".toList "alt".toList none) =
      Except.ok (Emitter.new (some "dir".toList),
        [Block.paragraph (placeholder_paragraph
          ("[Image: ".toList ++ "img.png".toList ++ " (not found)]".toList))]) ∧
    process_node
      { sample_env with read_file := fun _ => ReadResult.readError "denied".toList }
      (Emitter.new (some "dir".toList)) []
      (Node.image "img.png".toList "alt".toList none) =
      Except.ok (Emitter.new (some "dir".toList),
        [Block.paragraph (placeholder_paragraph
          ("[Image: ".toList ++ path_join "dir".toList "img.png".toList ++
            " (could not read file)]".toList))]) := by
  refine ⟨⟨rfl, ?_⟩, ?_, ?_⟩
  · exact c6_missing_image_degrades_amended.1 sample_env (Emitter.new none) []
      "img.png".toList "alt".toList none rfl
  · exact c6_missing_image_degrades_amended.2.1 sample_env
      (Emitter.new (some "dir".toList)) [] "img.png".toList "alt".toList none
      "dir".toList rfl (by decide)
  · exact c6_missing_image_degrades_amended.2.2.1
      { sample_env with read_file := fun _ => ReadResult.readError "denied".toList }
      (Emitter.new (some "dir".toList)) [] "img.png".toList "alt".toList none
      "dir".toList "denied".toList rfl (by decide)

/-! ### C8 -/

/-- The mdast tree the external parser produces for the scenario A input
`"# Title\n\nThis is **bold** and *italic*."`. -/
def scenario_a_tree : Node :=
  Node.root
    [ Node.heading 1 [Node.text "Title".toList]
    , Node.paragraph
        [ Node.text "This is ".toList
        , Node.strong [Node.text "bold".toList]
        , Node.text " and ".toList
        , Node.emphasis [Node.text "italic".toList]
        , Node.text ".".toList ] ]

set_option maxHeartbeats 4000000 in
/-- C8, evaluated at the claimed input: the emitted block sequence is a
tier-1 (size 36) bold heading "Title" followed by one paragraph — but the
paragraph's runs are ["This is", bold "bold", "and", italic "italic", "."]:
`visit_text`'s `split_whitespace().join(" ")` does not merely collapse
whitespace runs, it also deletes the leading/trailing spaces of every text
node, so the boundary spaces of "This is " and " and " required by the
claim are destroyed. -/
theorem c8_scenario_a_actual_output :
    run_passes sample_env none scenario_a_tree =
      Except.ok (Emitter.new none,
        [ Block.paragraph
            { runs := [{ content := RunContent.text "Title".toList, bold := true,
                         italic := false, size := some 36 }]
              align := none, indent := none, numbering := none }
        , Block.paragraph
            { runs :=
                [ { content := RunContent.text "This is".toList, bold := false,
                    italic := false, size := none }
                , { content := RunContent.text "bold".toList, bold := true,
                    italic := false, size := none }
                , { content := RunContent.text "and".toList, bold := false,
                    italic := false, size := none }
                , { content := RunContent.text "italic".toList, bold := false,
                    italic := true, size := none }
                , { content := RunContent.text ".".toList, bold := false,
                    italic := false, size := none } ]
              align := none, indent := some paragraph_indent, numbering := none } ]) ∧
    ("This is".toList ≠ "This is ".toList ∧ "and".toList ≠ " and ".toList) := by
  constructor
  · rfl
  · exact ⟨by decide, by decide⟩

/-! ### C1 -/

/-- Pass 1 over a concatenation is the two folds in sequence. -/
theorem collect_list_append (env : Env) :
    ∀ (xs ys : List Node) (c : ImageReferenceCollector),
      collect_list env c (xs ++ ys) = collect_list env (collect_list env c xs) ys := by
  intro xs
  induction xs with
  | nil => intro ys c; rfl
  | cons x xs ih =>
    intro ys c
    simp only [List.cons_append, collect_list]
    exact ih ys (collect_node env c x)

/-- Pass 1 ignores a paragraph holding only text: text nodes contribute
nothing to the reference map, wherever they sit. -/
theorem collect_para_text (env : Env) (c : ImageReferenceCollector) (v : Chars) :
    collect_node env c (Node.paragraph [Node.text v]) = c := rfl

/-- Pass 2 over a concatenation is the two child loops in sequence. -/
theorem process_list_append (env : Env) :
    ∀ (xs ys : List Node) (st : Emitter) (docx : Docx),
      process_list env st docx (xs ++ ys) =
        match process_list env st docx xs with
        | Except.error e => Except.error e
        | Except.ok (st', docx') => process_list env st' docx' ys := by
  intro xs
  induction xs with
  | nil => intro ys st docx; rfl
  | cons x xs ih =>
    intro ys st docx
    simp only [List.cons_append, process_list]
    rcases process_node env st docx x with e | ⟨st1, d1⟩
    · rfl
    · exact ih ys st1 d1

/-- Full evaluation of `visit_paragraph` on a single text child: one
paragraph block whose single run carries the normalized, resolved text and
the style derived from the current counters; the accumulator is taken back
to `Paragraph::new()` and the pending alignment (reset on entry, set by
nothing) leaves the paragraph unaligned. -/
theorem process_paragraph_single_text (env : Env) (st : Emitter) (docx : Docx)
    (v : Chars) :
    process_node env st docx (Node.paragraph [Node.text v]) =
      Except.ok
        ({ st with paragraph := DocxParagraph.new, paragraph_alignment := none },
          docx.add_paragraph
            { runs :=
                [{ content := RunContent.text
                     (scanRefs (lookupRef st.image_references) (normalizeText v)),
                   bold := st.strong_state.set, italic := st.em_state.set, size := none }],
              align := none, indent := some paragraph_indent,
              numbering := none }) := rfl

/-- The map pass 1 hands to pass 2 for a document. -/
def first_pass_map (env : Env) (ast : Node) : RefMap :=
  (collect_node env ImageReferenceCollector.init ast).intoMap

/-- The paragraph block produced for a text whose (normalized) value is
`pre ++ placeholder-for-k ++ post` once the placeholder resolved to
figure `N`. -/
def resolved_run_para (m : RefMap) (pre post : Chars) (N : Nat) : DocxParagraph :=
  { runs :=
      [{ content := RunContent.text (pre ++ figureText N ++ scanRefs (lookupRef m) post),
         bold := false, italic := false, size := none }],
    align := none, indent := some paragraph_indent, numbering := none }

/-- Peeling one successfully processed child off the pass 2 child loop. -/
theorem process_list_cons_ok {env : Env} {st : Emitter} {docx : Docx}
    {c : Node} {cs : List Node} {stm : Emitter} {dm : Docx}
    {st2 : Emitter} {d2 : Docx}
    (hc : process_node env st docx c = Except.ok (stm, dm))
    (h : process_list env st docx (c :: cs) = Except.ok (st2, d2)) :
    process_list env stm dm cs = Except.ok (st2, d2) := by
  simp only [process_list] at h
  rw [hc] at h
  exact h

/-- A paragraph holding one text node, processed in a state whose
formatting counters are at zero and whose map knows key `k`, appends
exactly the resolved paragraph. -/
theorem para_contributes_resolved (env : Env) (st : Emitter) (docx : Docx)
    (v pre pad k post : Chars) (N : Nat)
    (hpre : '{' ∉ pre) (hpad : ∀ c ∈ pad, isWsChar c = true)
    (hk : '}' ∉ k) (hkey : k.dropWhile isWsChar = k)
    (hv : normalizeText v = pre ++ refToken (pad ++ k) ++ post)
    (hrefs : lookupRef st.image_references k = some N)
    (hstrong : st.strong_state = StackCounter.new)
    (hem : st.em_state = StackCounter.new) :
    process_node env st docx (Node.paragraph [Node.text v]) =
      Except.ok
        ({ st with paragraph := DocxParagraph.new, paragraph_alignment := none },
          docx.add_paragraph (resolved_run_para st.image_references pre post N)) := by
  rw [process_paragraph_single_text]
  have htext : scanRefs (lookupRef st.image_references) (normalizeText v) =
      pre ++ figureText N ++ scanRefs (lookupRef st.image_references) post := by
    rw [hv]
    have := scanRefs_split (lookupRef st.image_references) pre pad k post hpre hpad hk hkey
    rw [hrefs] at this
    simpa using this
  simp only [resolved_run_para, htext, hstrong, hem, StackCounter.set, StackCounter.new]
  simp

/-- C1: with pass 1 always running to completion over the whole tree
before pass 2 starts, a text placeholder `\x7bref: k\x7d` resolves to
`Figure N` — `N` the number pass 1 assigned to `k` — whether the text node
comes before every other node of the document or after them (in
particular, before or after the image that defines `k`; `others` ranges
over arbitrary sibling nodes, hence over any image position). -/
theorem c1_placeholder_resolves_in_both_orders (env : Env) (base : Option Chars)
    (others : List Node) (v pre pad k post : Chars) (N : Nat)
    (hpre : '{' ∉ pre) (hpad : ∀ c ∈ pad, isWsChar c = true)
    (hk : '}' ∉ k) (hkey : k.dropWhile isWsChar = k)
    (hv : normalizeText v = pre ++ refToken (pad ++ k) ++ post)
    (hN : lookupRef (first_pass_map env
        (Node.root (Node.paragraph [Node.text v] :: others))) k = some N) :
    (∀ (st1 : Emitter) (blocks1 : Docx),
        run_passes env base (Node.root (Node.paragraph [Node.text v] :: others)) =
          Except.ok (st1, blocks1) →
        Block.paragraph (resolved_run_para
          (first_pass_map env (Node.root (Node.paragraph [Node.text v] :: others)))
          pre post N) ∈ blocks1) ∧
    (∀ (st2 : Emitter) (blocks2 : Docx),
        run_passes env base (Node.root (others ++ [Node.paragraph [Node.text v]])) =
          Except.ok (st2, blocks2) →
        Block.paragraph (resolved_run_para
          (first_pass_map env (Node.root (Node.paragraph [Node.text v] :: others)))
          pre post N) ∈ blocks2) := by
  have hmap2 : first_pass_map env (Node.root (others ++ [Node.paragraph [Node.text v]])) =
      first_pass_map env (Node.root (Node.paragraph [Node.text v] :: others)) := by
    unfold first_pass_map
    simp only [collect_node]
    rw [collect_list_append]
    rfl
  constructor
  · intro st1 blocks1 hrun
    unfold run_passes at hrun
    simp only [process_node] at hrun
    have hpar := para_contributes_resolved env
      ((Emitter.new base).set_image_refernces
        (collect_node env ImageReferenceCollector.init
          (Node.root (Node.paragraph [Node.text v] :: others))).intoMap)
      [] v pre pad k post N hpre hpad hk hkey hv (by exact hN) rfl rfl
    have hstep := process_list_cons_ok hpar hrun
    obtain ⟨_, _, _, _, _, t, ht⟩ := process_list_inv env _ _ others st1 blocks1 hstep
    rw [ht]
    exact List.mem_append_left _ (List.mem_singleton_self _)
  · intro st2 blocks2 hrun
    unfold run_passes at hrun
    simp only [process_node] at hrun
    rw [process_list_append] at hrun
    rcases hO : process_list env
        ((Emitter.new base).set_image_refernces
          (collect_node env ImageReferenceCollector.init
            (Node.root (others ++ [Node.paragraph [Node.text v]]))).intoMap)
        [] others with e | ⟨stO, dO⟩
    · rw [hO] at hrun
      exact absurd hrun (by simp)
    · rw [hO] at hrun
      obtain ⟨a1, a2, a3, _, _, _, _⟩ := process_list_inv env _ _ others stO dO hO
      have hrefs_eq : stO.image_references =
          first_pass_map env (Node.root (Node.paragraph [Node.text v] :: others)) := by
        rw [a1]
        exact hmap2
      have hpar := para_contributes_resolved env stO dO v pre pad k post N
        hpre hpad hk hkey hv (by rw [hrefs_eq]; exact hN)
        (by rw [a2]; rfl) (by rw [a3]; rfl)
      have hstep := process_list_cons_ok hpar (by exact hrun)
      simp only [process_list, Except.ok.injEq, Prod.mk.injEq] at hstep
      obtain ⟨_, hb⟩ := hstep
      rw [← hb, hrefs_eq]
      exact List.mem_append_right _ (List.mem_singleton_self _)

/-- Witness for C1: a document whose image (alt decoding to ref `a`,
assigned Figure 1 by pass 1) is referenced from a text placeholder; both
orders of text and image produce the resolved paragraph. -/
theorem c1_placeholder_resolves_in_both_orders_witness :
    (normalizeText "see \x7bref: a\x7d".toList =
      "see ".toList ++ refToken (' ' :: "a".toList) ++ [] ∧
     lookupRef (first_pass_map sample_env
       (Node.root [Node.paragraph [Node.text "see \x7bref: a\x7d".toList],
         Node.image "u".toList "altA".toList none])) "a".toList = some 1) ∧
    (∃ r1, run_passes sample_env none
        (Node.root [Node.paragraph [Node.text "see \x7bref: a\x7d".toList],
          Node.image "u".toList "altA".toList none]) = Except.ok r1 ∧
      Block.paragraph (resolved_run_para
        (first_pass_map sample_env
          (Node.root [Node.paragraph [Node.text "see \x7bref: a\x7d".toList],
            Node.image "u".toList "altA".toList none]))
        "see ".toList [] 1) ∈ r1.2) ∧
    (∃ r2, run_passes sample_env none
        (Node.root [Node.image "u".toList "altA".toList none,
          Node.paragraph [Node.text "see \x7bref: a\x7d".toList]]) = Except.ok r2 ∧
      Block.paragraph (resolved_run_para
        (first_pass_map sample_env
          (Node.root [Node.paragraph [Node.text "see \x7bref: a\x7d".toList],
            Node.image "u".toList "altA".toList none]))
        "see ".toList [] 1) ∈ r2.2) := by
  have hmain := c1_placeholder_resolves_in_both_orders sample_env none
    [Node.image "u".toList "altA".toList none]
    "see \x7bref: a\x7d".toList "see ".toList [' '] "a".toList [] 1
    (by decide) (by decide) (by decide) (by decide) (by decide) (by decide)
  have hr1 : run_passes sample_env none
      (Node.root [Node.paragraph [Node.text "see \x7bref: a\x7d".toList],
        Node.image "u".toList "altA".toList none]) =
      Except.ok ((Emitter.new none).set_image_refernces [("a".toList, 1)],
        [Block.paragraph (resolved_run_para [("a".toList, 1)] "see ".toList [] 1),
         Block.paragraph (placeholder_paragraph "[Image: u]".toList)]) := by rfl
  have hr2 : run_passes sample_env none
      (Node.root [Node.image "u".toList "altA".toList none,
        Node.paragraph [Node.text "see \x7bref: a\x7d".toList]]) =
      Except.ok ((Emitter.new none).set_image_refernces [("a".toList, 1)],
        [Block.paragraph (placeholder_paragraph "[Image: u]".toList),
         Block.paragraph (resolved_run_para [("a".toList, 1)] "see ".toList [] 1)]) := by rfl
  exact ⟨⟨by decide, by decide⟩,
    ⟨_, hr1, hmain.1 _ _ hr1⟩,
    ⟨_, hr2, hmain.2 _ _ hr2⟩⟩
